import Mathlib

/-!
Verification of the workflow execution state-tracking subsystem of
`engine-cli` (the `WorkflowStateManager` and its record model).
The manager module itself ships outside this source snapshot, so the
definitions below are modelled from the specification and exercised
against the behaviour its unit tests pin down.
-/

mutual

/-- Modelled from the spec: the transport-neutral structured format
(JSON) used by the missing `engine_cli/storage/workflow_state_manager.py`
to store execution records. Numbers are modelled exactly as rationals. -/
inductive Json where
  | null
  | bool (b : Bool)
  | num (q : Rat)
  | str (s : String)
  | arr (elems : JsonList)
  | obj (fields : JsonObj)

/-- A list of JSON values (array elements). -/
inductive JsonList where
  | nil
  | cons (hd : Json) (tl : JsonList)

/-- An ordered list of key/value members of a JSON object. -/
inductive JsonObj where
  | nil
  | cons (key : String) (val : Json) (tl : JsonObj)

end

deriving instance DecidableEq for Json
deriving instance DecidableEq for JsonList
deriving instance DecidableEq for JsonObj

/-- Execution-level states of the §4 state machine. -/
inductive WorkflowExecutionState where
  | pending
  | running
  | completed
  | failed
  | cancelled
deriving DecidableEq

/-- Per-vertex states of the §3 data model. -/
inductive VertexExecutionState where
  | pending
  | running
  | completed
  | failed
  | skipped
deriving DecidableEq

/-- Modelled from the spec: timestamps of the missing state-manager module,
kept as broken-down calendar/clock components (the shape ISO-8601 text
carries).  Serialization renders them as ISO-8601 strings. -/
structure DateTime where
  year : Nat
  month : Nat
  day : Nat
  hour : Nat
  minute : Nat
  second : Nat
  micro : Nat
deriving DecidableEq

/-- The component bounds under which a `DateTime` fits the fixed-width
ISO-8601 rendering (4-digit year, 2-digit clock fields, 6-digit
microseconds); every timestamp produced by the ISO parser satisfies them. -/
def DateTime.Valid (t : DateTime) : Prop :=
  t.year < 10000 ∧ t.month < 100 ∧ t.day < 100 ∧ t.hour < 100 ∧
    t.minute < 100 ∧ t.second < 100 ∧ t.micro < 1000000

instance (t : DateTime) : Decidable t.Valid := by
  unfold DateTime.Valid
  infer_instance

/-- Fixed-width base-10 digits of `n` (most significant first), as numbers. -/
def padDigits : Nat → Nat → List Nat
  | 0, _ => []
  | w + 1, n => (n / 10 ^ w) :: padDigits w (n % 10 ^ w)

/-- The character for a single decimal digit. -/
def digitChar (d : Nat) : Char := Char.ofNat (48 + d)

/-- Fixed-width decimal rendering of `n` as characters. -/
def digitChars (w n : Nat) : List Char := (padDigits w n).map digitChar

/-- Numeric value of a decimal digit character, if it is one. -/
def charToDigit (c : Char) : Option Nat :=
  if 48 ≤ c.toNat ∧ c.toNat ≤ 57 then some (c.toNat - 48) else none

/-- Read exactly `w` decimal digits, returning their value and the rest. -/
def parseDigits : Nat → List Char → Option (Nat × List Char)
  | 0, cs => some (0, cs)
  | _ + 1, [] => none
  | w + 1, c :: cs =>
    match charToDigit c, parseDigits w cs with
    | some d, some (v, rest) => some (d * 10 ^ w + v, rest)
    | _, _ => none

/-- Consume one expected literal character. -/
def expectChar (c : Char) : List Char → Option (List Char)
  | [] => none
  | x :: xs => if x = c then some xs else none

/-- Modelled from the spec: the ISO-8601 rendering
`YYYY-MM-DDTHH:MM:SS.ffffff` of a timestamp, used by the missing module's
record serialization. -/
def isoOfDateTime (t : DateTime) : String :=
  String.mk (digitChars 4 t.year ++ '-' ::
    (digitChars 2 t.month ++ '-' ::
      (digitChars 2 t.day ++ 'T' ::
        (digitChars 2 t.hour ++ ':' ::
          (digitChars 2 t.minute ++ ':' ::
            (digitChars 2 t.second ++ '.' :: digitChars 6 t.micro))))))

/-- Parse the fixed-width ISO-8601 rendering back into a `DateTime`. -/
def parseDateTimeChars (cs0 : List Char) : Option DateTime :=
  match parseDigits 4 cs0 with
  | none => none
  | some (y, cs1) =>
  match expectChar '-' cs1 with
  | none => none
  | some cs2 =>
  match parseDigits 2 cs2 with
  | none => none
  | some (mo, cs3) =>
  match expectChar '-' cs3 with
  | none => none
  | some cs4 =>
  match parseDigits 2 cs4 with
  | none => none
  | some (d, cs5) =>
  match expectChar 'T' cs5 with
  | none => none
  | some cs6 =>
  match parseDigits 2 cs6 with
  | none => none
  | some (h, cs7) =>
  match expectChar ':' cs7 with
  | none => none
  | some cs8 =>
  match parseDigits 2 cs8 with
  | none => none
  | some (mi, cs9) =>
  match expectChar ':' cs9 with
  | none => none
  | some cs10 =>
  match parseDigits 2 cs10 with
  | none => none
  | some (s2, cs11) =>
  match expectChar '.' cs11 with
  | none => none
  | some cs12 =>
  match parseDigits 6 cs12 with
  | none => none
  | some (u, cs13) =>
  match cs13 with
  | [] => some ⟨y, mo, d, h, mi, s2, u⟩
  | _ => none

/-- Modelled from the spec: ISO-8601 timestamp parsing used when decoding
stored records in the missing module. -/
def dateTimeOfIso (s : String) : Option DateTime :=
  parseDateTimeChars s.data

theorem charToDigit_digitChar (d : Nat) (h : d < 10) :
    charToDigit (digitChar d) = some d := by
  interval_cases d <;> decide

theorem parseDigits_digitChars (rest : List Char) :
    ∀ (w n : Nat), n < 10 ^ w →
      parseDigits w (digitChars w n ++ rest) = some (n, rest)
  | 0, n, h => by
    have hn : n = 0 := by
      have : n < 1 := by simpa using h
      omega
    simp [digitChars, padDigits, parseDigits, hn]
  | w + 1, n, h => by
    have hd : n / 10 ^ w < 10 := by
      apply Nat.div_lt_of_lt_mul
      calc n < 10 ^ (w + 1) := h
        _ = 10 ^ w * 10 := by ring
    have hm : n % 10 ^ w < 10 ^ w := Nat.mod_lt _ (by positivity)
    have ih := parseDigits_digitChars rest w (n % 10 ^ w) hm
    simp [digitChars, padDigits, parseDigits, charToDigit_digitChar _ hd,
      digitChars] at ih ⊢
    simp [ih]
    exact Nat.div_add_mod' n (10 ^ w)

theorem expectChar_cons (c : Char) (rest : List Char) :
    expectChar c (c :: rest) = some rest := by
  simp [expectChar]

theorem dateTimeOfIso_isoOfDateTime (t : DateTime) (h : t.Valid) :
    dateTimeOfIso (isoOfDateTime t) = some t := by
  obtain ⟨y, mo, d, hh, mi, ss, u⟩ := t
  obtain ⟨h1, h2, h3, h4, h5, h6, h7⟩ := h
  have hy : y < 10 ^ 4 := by norm_num; exact h1
  have hmo : mo < 10 ^ 2 := by norm_num; exact h2
  have hd : d < 10 ^ 2 := by norm_num; exact h3
  have hhh : hh < 10 ^ 2 := by norm_num; exact h4
  have hmi : mi < 10 ^ 2 := by norm_num; exact h5
  have hss : ss < 10 ^ 2 := by norm_num; exact h6
  have hu : u < 10 ^ 6 := by norm_num; exact h7
  have p6 : parseDigits 6 (digitChars 6 u) = some (u, []) := by
    rw [show digitChars 6 u = digitChars 6 u ++ [] from (List.append_nil _).symm]
    exact parseDigits_digitChars [] 6 u hu
  simp only [dateTimeOfIso, isoOfDateTime, parseDateTimeChars,
    parseDigits_digitChars _ 4 y hy, parseDigits_digitChars _ 2 mo hmo,
    parseDigits_digitChars _ 2 d hd, parseDigits_digitChars _ 2 hh hhh,
    parseDigits_digitChars _ 2 mi hmi, parseDigits_digitChars _ 2 ss hss,
    p6, expectChar_cons]

theorem parseDigits_lt : ∀ (w : Nat) (cs : List Char) (v : Nat) (rest : List Char),
    parseDigits w cs = some (v, rest) → v < 10 ^ w
  | 0, cs, v, rest, h => by
    simp only [parseDigits, Option.some.injEq, Prod.mk.injEq] at h
    simp [← h.1]
  | w + 1, [], v, rest, h => by
    simp [parseDigits] at h
  | w + 1, c :: cs, v, rest, h => by
    simp only [parseDigits] at h
    rcases hc : charToDigit c with _ | d
    · rw [hc] at h
      simp at h
    · rw [hc] at h
      rcases hp : parseDigits w cs with _ | ⟨v2, rest2⟩
      · rw [hp] at h
        simp at h
      · rw [hp] at h
        simp only [Option.some.injEq, Prod.mk.injEq] at h
        have hd9 : d ≤ 9 := by
          unfold charToDigit at hc
          split at hc
          · simp only [Option.some.injEq] at hc
            omega
          · simp at hc
        have hv2 := parseDigits_lt w cs v2 rest2 hp
        calc v = d * 10 ^ w + v2 := h.1.symm
          _ < d * 10 ^ w + 10 ^ w := by omega
          _ = (d + 1) * 10 ^ w := by ring
          _ ≤ 10 * 10 ^ w := Nat.mul_le_mul_right _ (by omega)
          _ = 10 ^ (w + 1) := by ring

theorem dateTimeOfIso_valid (s : String) (t : DateTime) :
    dateTimeOfIso s = some t → t.Valid := by
  intro h
  unfold dateTimeOfIso parseDateTimeChars at h
  repeat' split at h
  all_goals simp_all
  obtain rfl := h
  refine ⟨?_, ?_, ?_, ?_, ?_, ?_, ?_⟩ <;>
    exact lt_of_lt_of_le (parseDigits_lt _ _ _ _ (by assumption)) (by norm_num)

/-- Modelled from the spec: the lowercase symbolic name under which an
execution-level state is serialized. -/
def stateName : WorkflowExecutionState → String
  | .pending => "pending"
  | .running => "running"
  | .completed => "completed"
  | .failed => "failed"
  | .cancelled => "cancelled"

/-- Modelled from the spec: parsing an execution-level state back from its
lowercase symbolic name. -/
def stateOfName (s : String) : Option WorkflowExecutionState :=
  if s = "pending" then some .pending
  else if s = "running" then some .running
  else if s = "completed" then some .completed
  else if s = "failed" then some .failed
  else if s = "cancelled" then some .cancelled
  else none

/-- Modelled from the spec: the lowercase symbolic name of a vertex state. -/
def vertexStateName : VertexExecutionState → String
  | .pending => "pending"
  | .running => "running"
  | .completed => "completed"
  | .failed => "failed"
  | .skipped => "skipped"

/-- Modelled from the spec: parsing a vertex state from its name. -/
def vertexStateOfName (s : String) : Option VertexExecutionState :=
  if s = "pending" then some .pending
  else if s = "running" then some .running
  else if s = "completed" then some .completed
  else if s = "failed" then some .failed
  else if s = "skipped" then some .skipped
  else none

theorem stateOfName_stateName (st : WorkflowExecutionState) :
    stateOfName (stateName st) = some st := by
  cases st <;> rfl

theorem vertexStateOfName_vertexStateName (st : VertexExecutionState) :
    vertexStateOfName (vertexStateName st) = some st := by
  cases st <;> rfl

/-- Modelled from the spec: one `VertexExecutionRecord` of §3 — the state a
single vertex last reported, when it reported it, and its optional payload. -/
structure VertexRecord where
  state : VertexExecutionState
  updated_at : DateTime
  output_data : Option Json
deriving DecidableEq

/-- Modelled from the spec: one `WorkflowExecutionRecord` of §3
(`WorkflowExecutionStatus` in the missing module).  `vertex_states` is the
ordered vertex-id/record mapping; payloads are arbitrary JSON. -/
structure WorkflowExecutionStatus where
  execution_id : String
  workflow_id : String
  workflow_name : String
  state : WorkflowExecutionState
  start_time : DateTime
  end_time : Option DateTime
  input_data : Json
  output_data : Option Json
  error_message : Option String
  current_vertex : Option String
  progress_percentage : Option Rat
  vertex_states : List (String × VertexRecord)
deriving DecidableEq

/-- Look a key up among the ordered members of a JSON object. -/
def jGet : JsonObj → String → Option Json
  | .nil, _ => none
  | .cons k v tl, key => if k = key then some v else jGet tl key

/-- Concatenate two member lists of a JSON object. -/
def JsonObj.append : JsonObj → JsonObj → JsonObj
  | .nil, o => o
  | .cons k v tl, o => .cons k v (JsonObj.append tl o)

/-- A member list holding `key` exactly when the optional value is present
(the spec's omit-optional-fields serialization convention). -/
def optObjField (key : String) : Option Json → JsonObj
  | none => .nil
  | some j => .cons key j .nil

/-- Modelled from the spec: serialization of a single vertex record, with
its state as a lowercase name, its timestamp as an ISO-8601 string and its
optional payload omitted when absent. -/
def encodeVertex (v : VertexRecord) : Json :=
  Json.obj (.cons "state" (.str (vertexStateName v.state))
    (.cons "updated_at" (.str (isoOfDateTime v.updated_at))
      (optObjField "output_data" v.output_data)))

/-- Modelled from the spec: decoding of a single vertex record. -/
def decodeVertex (j : Json) : Option VertexRecord :=
  match j with
  | .obj fs =>
    match jGet fs "state" with
    | some (.str sn) =>
      match vertexStateOfName sn with
      | some st =>
        match jGet fs "updated_at" with
        | some (.str ua) =>
          match dateTimeOfIso ua with
          | some t => some ⟨st, t, jGet fs "output_data"⟩
          | none => none
        | _ => none
      | none => none
    | _ => none
  | _ => none

/-- Modelled from the spec: `vertex_states` serialized as a JSON object
keyed by vertex id. -/
def encodeVertexStates : List (String × VertexRecord) → JsonObj
  | [] => .nil
  | (k, v) :: tl => .cons k (encodeVertex v) (encodeVertexStates tl)

/-- Modelled from the spec: decoding of the `vertex_states` object; fails
when any member fails to decode. -/
def decodeVertexStates : JsonObj → Option (List (String × VertexRecord))
  | .nil => some []
  | .cons k v tl =>
    match decodeVertex v, decodeVertexStates tl with
    | some r, some rest => some ((k, r) :: rest)
    | _, _ => none

/-- Decode an optional ISO-8601 timestamp member: a missing key is an
absent field, a present key must be a parseable string. -/
def decodeOptDateTime (fs : JsonObj) (key : String) : Option (Option DateTime) :=
  match jGet fs key with
  | none => some none
  | some (.str s) =>
    match dateTimeOfIso s with
    | some t => some (some t)
    | none => none
  | some _ => none

/-- Decode an optional string member. -/
def decodeOptStr (fs : JsonObj) (key : String) : Option (Option String) :=
  match jGet fs key with
  | none => some none
  | some (.str s) => some (some s)
  | some _ => none

/-- Decode an optional numeric member. -/
def decodeOptNum (fs : JsonObj) (key : String) : Option (Option Rat) :=
  match jGet fs key with
  | none => some none
  | some (.num q) => some (some q)
  | some _ => none

/-- Modelled from the spec: `encode(record)` — the JSON object §6 fixes,
with states as lowercase symbolic names, timestamps as ISO-8601 strings,
optional fields omitted when absent, and `vertex_states` as a JSON object
keyed by vertex id. -/
def encode (r : WorkflowExecutionStatus) : Json :=
  Json.obj (.cons "execution_id" (.str r.execution_id)
    (.cons "workflow_id" (.str r.workflow_id)
      (.cons "workflow_name" (.str r.workflow_name)
        (.cons "state" (.str (stateName r.state))
          (.cons "start_time" (.str (isoOfDateTime r.start_time))
            (JsonObj.append
              (optObjField "end_time" (r.end_time.map (fun t => .str (isoOfDateTime t))))
              (.cons "input_data" r.input_data
                (JsonObj.append (optObjField "output_data" r.output_data)
                  (JsonObj.append
                    (optObjField "error_message" (r.error_message.map .str))
                    (JsonObj.append
                      (optObjField "current_vertex" (r.current_vertex.map .str))
                      (JsonObj.append
                        (optObjField "progress_percentage" (r.progress_percentage.map .num))
                        (.cons "vertex_states" (.obj (encodeVertexStates r.vertex_states))
                          .nil))))))))))))

/-- Decode a required string member. -/
def decodeStrField (fs : JsonObj) (key : String) : Option String :=
  match jGet fs key with
  | some (.str s) => some s
  | _ => none

/-- Modelled from the spec: decoding of the `vertex_states` member; a
missing member defaults to the empty mapping. -/
def decodeVSField (fs : JsonObj) : Option (List (String × VertexRecord)) :=
  match jGet fs "vertex_states" with
  | none => some []
  | some (.obj vo) => decodeVertexStates vo
  | some _ => none

/-- Modelled from the spec: `decode(blob)` — reconstructs every field of a
stored record; missing optional members default to absent, malformed
members fail the decode. -/
def decode (j : Json) : Option WorkflowExecutionStatus :=
  match j with
  | .obj fs =>
    match decodeStrField fs "execution_id" with
    | none => none
    | some eid =>
    match decodeStrField fs "workflow_id" with
    | none => none
    | some wid =>
    match decodeStrField fs "workflow_name" with
    | none => none
    | some wname =>
    match decodeStrField fs "state" with
    | none => none
    | some sn =>
    match stateOfName sn with
    | none => none
    | some st =>
    match decodeStrField fs "start_time" with
    | none => none
    | some sts =>
    match dateTimeOfIso sts with
    | none => none
    | some stt =>
    match decodeOptDateTime fs "end_time" with
    | none => none
    | some endt =>
    match jGet fs "input_data" with
    | none => none
    | some inp =>
    match decodeOptStr fs "error_message" with
    | none => none
    | some errm =>
    match decodeOptStr fs "current_vertex" with
    | none => none
    | some cv =>
    match decodeOptNum fs "progress_percentage" with
    | none => none
    | some pp =>
    match decodeVSField fs with
    | none => none
    | some vs =>
      some ⟨eid, wid, wname, st, stt, endt, inp,
        jGet fs "output_data", errm, cv, pp, vs⟩
  | _ => none

/-- An optional timestamp whose value, when present, is in-bounds. -/
def optValid : Option DateTime → Prop
  | none => True
  | some t => t.Valid

instance (o : Option DateTime) : Decidable (optValid o) := by
  cases o <;> unfold optValid <;> infer_instance

/-- A §3-valid record: every timestamp it carries fits the fixed-width
ISO-8601 rendering. -/
def WorkflowExecutionStatus.Valid (r : WorkflowExecutionStatus) : Prop :=
  r.start_time.Valid ∧ optValid r.end_time ∧
    ∀ p ∈ r.vertex_states, (p.2).updated_at.Valid

instance (r : WorkflowExecutionStatus) : Decidable r.Valid := by
  unfold WorkflowExecutionStatus.Valid
  infer_instance

theorem decodeVertex_encodeVertex (v : VertexRecord) (h : v.updated_at.Valid) :
    decodeVertex (encodeVertex v) = some v := by
  obtain ⟨st, ua, od⟩ := v
  rcases od with _ | j <;>
    simp_all [encodeVertex, decodeVertex, jGet, optObjField,
      vertexStateOfName_vertexStateName, dateTimeOfIso_isoOfDateTime]

theorem decodeVertexStates_encodeVertexStates :
    ∀ (vs : List (String × VertexRecord)), (∀ p ∈ vs, (p.2).updated_at.Valid) →
      decodeVertexStates (encodeVertexStates vs) = some vs
  | [], _ => rfl
  | (k, v) :: tl, h => by
    have hv : v.updated_at.Valid := h (k, v) (by simp)
    have htl := decodeVertexStates_encodeVertexStates tl (fun p hp => h p (by simp [hp]))
    simp [encodeVertexStates, decodeVertexStates, decodeVertex_encodeVertex v hv, htl]

theorem decode_encode_of_valid (r : WorkflowExecutionStatus) (h : r.Valid) :
    decode (encode r) = some r := by
  obtain ⟨eid, wid, wname, st, stt, endt, inp, outd, errm, cv, pp, vs⟩ := r
  obtain ⟨h1, h2, h3⟩ := h
  have hvs := decodeVertexStates_encodeVertexStates vs (by exact h3)
  rcases endt with _ | et <;> rcases outd with _ | od <;> rcases errm with _ | em <;>
    rcases cv with _ | cvx <;> rcases pp with _ | ppx <;>
      simp_all [encode, decode, decodeStrField, decodeOptDateTime, decodeOptStr,
        decodeOptNum, decodeVSField, jGet, JsonObj.append, optObjField, optValid,
        stateOfName_stateName, dateTimeOfIso_isoOfDateTime]

theorem decodeVertex_valid (j : Json) (v : VertexRecord) :
    decodeVertex j = some v → v.updated_at.Valid := by
  intro h
  unfold decodeVertex at h
  repeat' split at h
  all_goals simp_all
  obtain rfl := h
  exact dateTimeOfIso_valid _ _ (by assumption)

theorem decodeVertexStates_valid :
    ∀ (vo : JsonObj) (vs : List (String × VertexRecord)),
      decodeVertexStates vo = some vs → ∀ p ∈ vs, (p.2).updated_at.Valid
  | .nil, vs, h => by
    simp [decodeVertexStates] at h
    simp [h]
  | .cons k v tl, vs, h => by
    simp only [decodeVertexStates] at h
    split at h
    · rename_i r rest hr hrest
      have hv := decodeVertex_valid v r hr
      have htl := decodeVertexStates_valid tl rest hrest
      simp only [Option.some.injEq] at h
      subst h
      intro p hp
      rcases List.mem_cons.mp hp with hp1 | hp2
      · simp [hp1, hv]
      · exact htl p hp2
    · simp at h

theorem decodeOptDateTime_valid (fs : JsonObj) (key : String) (o : Option DateTime) :
    decodeOptDateTime fs key = some o → optValid o := by
  intro h
  unfold decodeOptDateTime at h
  repeat' split at h
  all_goals rcases o with _ | t2 <;> simp_all [optValid]
  exact dateTimeOfIso_valid _ _ (by assumption)

theorem decodeVSField_valid (fs : JsonObj) (vs : List (String × VertexRecord)) :
    decodeVSField fs = some vs → ∀ p ∈ vs, (p.2).updated_at.Valid := by
  intro h
  unfold decodeVSField at h
  repeat' split at h
  all_goals simp_all
  · exact fun a b hb => decodeVertexStates_valid _ _ (by assumption) (a, b) hb

theorem decode_valid (j : Json) (r : WorkflowExecutionStatus) :
    decode j = some r → r.Valid := by
  intro h
  unfold decode at h
  repeat' split at h
  all_goals simp_all
  obtain rfl := h
  refine ⟨dateTimeOfIso_valid _ _ (by assumption), decodeOptDateTime_valid _ _ _ (by assumption), decodeVSField_valid _ _ (by assumption)⟩

/-- Modelled from the spec: a value as the remote key-value client hands
it back — either an ordinary string or a byte string (the client returns
keys and list members as bytes). -/
inductive RawStr where
  | str (s : String)
  | bytes (s : String)
deriving DecidableEq

/-- The text a raw backend value denotes (byte strings decode to text). -/
def RawStr.norm : RawStr → String
  | .str s => s
  | .bytes s => s

/-- Modelled from the spec: a scalar entry of the backend — the stored
encoded value together with the TTL it was written with. -/
structure KVEntry where
  value : Json
  ttl : Nat
deriving DecidableEq

/-- Look up an association list keyed by raw strings, comparing keys by
their denoted text (byte and ordinary spellings address the same key). -/
def getA {α : Type} : List (RawStr × α) → String → Option α
  | [], _ => none
  | (k, v) :: rest, key => if RawStr.norm k = key then some v else getA rest key

/-- Write to an association list keyed by raw strings: replace in place
the entry whose key denotes `key`, else append a new entry. -/
def setA {α : Type} : List (RawStr × α) → String → α → List (RawStr × α)
  | [], key, v => [(RawStr.str key, v)]
  | (k, v0) :: rest, key, v =>
    if RawStr.norm k = key then (k, v) :: rest else (k, v0) :: setA rest key v

/-- Remove every entry whose key denotes `key`. -/
def removeA {α : Type} : List (RawStr × α) → String → List (RawStr × α)
  | [], _ => []
  | (k, v) :: rest, key =>
    if RawStr.norm k = key then removeA rest key else (k, v) :: removeA rest key

/-- `pre.data` is an initial run of `s.data`. -/
def listHasPre : List Char → List Char → Bool
  | [], _ => true
  | _ :: _, [] => false
  | a :: as, b :: bs => a == b && listHasPre as bs

/-- `pre` is an initial run of `s`. -/
def strHasPre (pre s : String) : Bool := listHasPre pre.data s.data

/-- Modelled from the spec: the §4.2 backend interface's state — one map
for scalar keys (with their TTLs) and one map of lists — shared by the
remote and the in-memory implementation of the missing module. -/
structure Backend where
  kv : List (RawStr × KVEntry)
  lists : List (RawStr × List RawStr)
deriving DecidableEq

/-- The fresh, empty in-memory backend. -/
def Backend.empty : Backend := ⟨[], []⟩

/-- Modelled from the spec: `get(key)`. -/
def Backend.get (B : Backend) (key : String) : Option Json :=
  (getA B.kv key).map KVEntry.value

/-- Modelled from the spec: `set_with_ttl(key, value, ttl_seconds)`. -/
def Backend.setWithTTL (B : Backend) (key : String) (v : Json) (ttl : Nat) : Backend :=
  { B with kv := setA B.kv key ⟨v, ttl⟩ }

/-- Modelled from the spec: `list_push(key, value)` — most-recent first. -/
def Backend.listPush (B : Backend) (key : String) (v : String) : Backend :=
  { B with lists := setA B.lists key (RawStr.str v :: (getA B.lists key).getD []) }

/-- Modelled from the spec: `list_range(key, 0, -1)` — the whole stored
list, most-recently-pushed first. -/
def Backend.listRangeAll (B : Backend) (key : String) : List RawStr :=
  (getA B.lists key).getD []

/-- Modelled from the spec: `scan_keys(prefix)` — the scalar keys whose
denoted text starts with the given text, as the client returns them. -/
def Backend.scanKeys (B : Backend) (pre : String) : List RawStr :=
  (B.kv.map Prod.fst).filter (fun k => strHasPre pre (RawStr.norm k))

/-- Modelled from the spec: TTL expiry of a record key — the backend drops
the entry implicitly; nothing else changes. -/
def Backend.expireKey (B : Backend) (key : String) : Backend :=
  { B with kv := removeA B.kv key }

/-- Re-spell every key and stored list member of a backend through `f`
(e.g. `RawStr.bytes ∘ RawStr.norm`: the client returns byte strings). -/
def Backend.retag (B : Backend) (f : String → RawStr) : Backend :=
  ⟨B.kv.map (fun e => (f (RawStr.norm e.1), e.2)),
    B.lists.map (fun e => (f (RawStr.norm e.1), e.2.map (fun r => f (RawStr.norm r))))⟩

/-- Modelled from the spec: the §7 error taxonomy of the missing module. -/
inductive EngineError where
  | connectionError
  | notFoundError
  | decodeError
deriving DecidableEq

/-- Modelled from the spec: the §4.3 connection states. -/
inductive ConnState where
  | disconnected
  | connectedRemote
  | connectedFallback
deriving DecidableEq

/-- Modelled from the spec: the missing module's `WorkflowStateManager` —
its construction-time configuration, connection state, the reachability of
the remote service in the surrounding environment, and the active
backend's contents. -/
structure WorkflowStateManager where
  enable_fallback : Bool
  remote_available : Bool
  default_ttl : Nat
  conn : ConnState
  backend : Backend
deriving DecidableEq

/-- Modelled from the spec: `is_connected()` — true iff one of the two
connected variants holds. -/
def is_connected (m : WorkflowStateManager) : Bool :=
  match m.conn with
  | .disconnected => false
  | .connectedRemote => true
  | .connectedFallback => true

/-- Modelled from the spec: `connect()` — ping the remote backend; on
success the remote is active; on failure fall back to a fresh in-memory
backend when enabled, else surface the connection error. -/
def connect (m : WorkflowStateManager) : Except EngineError WorkflowStateManager :=
  if m.remote_available then .ok { m with conn := .connectedRemote }
  else if m.enable_fallback then
    .ok { m with conn := .connectedFallback, backend := Backend.empty }
  else .error .connectionError

/-- Modelled from the spec: the §6 record key `workflow:execution:{id}`. -/
def recordKey (execution_id : String) : String :=
  "workflow:execution:" ++ execution_id

/-- Modelled from the spec: the §6 per-workflow index key
`workflow:executions:{workflow_id}`. -/
def indexKey (workflow_id : String) : String :=
  "workflow:executions:" ++ workflow_id

/-- Modelled from the spec: the namespace scanned for records. -/
def recordPre : String := "workflow:execution:"

/-- The stored record under an execution id, decoded. -/
def lookupRecord (m : WorkflowStateManager) (execution_id : String) :
    Option WorkflowExecutionStatus :=
  match Backend.get m.backend (recordKey execution_id) with
  | none => none
  | some j => decode j

/-- Write a record back under its execution id with a refreshed TTL. -/
def writeRecord (m : WorkflowStateManager) (execution_id : String)
    (r : WorkflowExecutionStatus) : WorkflowStateManager :=
  { m with backend :=
      Backend.setWithTTL m.backend (recordKey execution_id) (encode r) m.default_ttl }

/-- Modelled from the spec: the read-modify-write cycle every mutation
shares — connection required, `NotFoundError` on a missing key, decode
failure surfaced, then the whole record written back with a fresh TTL. -/
def mutateRecord (m : WorkflowStateManager) (execution_id : String)
    (f : WorkflowExecutionStatus → WorkflowExecutionStatus) :
    Except EngineError WorkflowStateManager :=
  if is_connected m = false then .error .connectionError else
  match Backend.get m.backend (recordKey execution_id) with
  | none => .error .notFoundError
  | some j =>
    match decode j with
    | none => .error .decodeError
    | some r => .ok (writeRecord m execution_id (f r))

/-- Look up a vertex entry in the ordered vertex-states mapping. -/
def getVS : List (String × VertexRecord) → String → Option VertexRecord
  | [], _ => none
  | (k, v) :: rest, key => if k = key then some v else getVS rest key

/-- Create or overwrite a vertex entry in place. -/
def setVS : List (String × VertexRecord) → String → VertexRecord →
    List (String × VertexRecord)
  | [], key, v => [(key, v)]
  | (k, v0) :: rest, key, v =>
    if k = key then (key, v) :: rest else (k, v0) :: setVS rest key v

/-- Modelled from the spec: the fresh record `create_execution` writes —
`state = pending`, `start_time = now`, empty `vertex_states`, every other
optional field absent. -/
def freshExecRecord (execution_id workflow_id workflow_name : String)
    (input_data : Json) (now : DateTime) : WorkflowExecutionStatus :=
  { execution_id := execution_id
    workflow_id := workflow_id
    workflow_name := workflow_name
    state := .pending
    start_time := now
    end_time := none
    input_data := input_data
    output_data := none
    error_message := none
    current_vertex := none
    progress_percentage := none
    vertex_states := [] }

/-- Modelled from the spec: `create_execution` — build the id from the
workflow id and a uniqueness token, store a fresh pending record with a
TTL and push the id onto the per-workflow index. -/
def create_execution (m : WorkflowStateManager) (workflow_id workflow_name : String)
    (input_data : Json) (now : DateTime) (token : String) :
    Except EngineError (String × WorkflowStateManager) :=
  if is_connected m = false then .error .connectionError else
  let execution_id := "wf_exec_" ++ workflow_id ++ "_" ++ token
  let r0 := freshExecRecord execution_id workflow_id workflow_name input_data now
  let B1 := Backend.setWithTTL m.backend (recordKey execution_id) (encode r0) m.default_ttl
  let B2 := Backend.listPush B1 (indexKey workflow_id) execution_id
  .ok (execution_id, { m with backend := B2 })

/-- Modelled from the spec: the in-memory field application of
`update_execution_state` — the new state plus exactly the optional fields
supplied. -/
def applyExecUpdate (state : WorkflowExecutionState) (current_vertex : Option String)
    (progress_percentage : Option Rat) (r : WorkflowExecutionStatus) :
    WorkflowExecutionStatus :=
  { r with
    state := state
    current_vertex :=
      match current_vertex with
      | some v => some v
      | none => r.current_vertex
    progress_percentage :=
      match progress_percentage with
      | some p => some p
      | none => r.progress_percentage }

/-- Modelled from the spec: `update_execution_state` — apply the new state
and exactly the optional fields supplied. -/
def update_execution_state (m : WorkflowStateManager) (execution_id : String)
    (state : WorkflowExecutionState) (current_vertex : Option String)
    (progress_percentage : Option Rat) : Except EngineError WorkflowStateManager :=
  mutateRecord m execution_id (applyExecUpdate state current_vertex progress_percentage)

/-- The record as `update_vertex_state` rewrites it. -/
def applyVertexUpdate (vertex_id : String) (state : VertexExecutionState)
    (output_data : Option Json) (now : DateTime) (r : WorkflowExecutionStatus) :
    WorkflowExecutionStatus :=
  { r with vertex_states := setVS r.vertex_states vertex_id ⟨state, now, output_data⟩ }

/-- Modelled from the spec: `update_vertex_state` — create or overwrite
`vertex_states[vertex_id]` with the reported state, the update time and
the optional payload. -/
def update_vertex_state (m : WorkflowStateManager) (execution_id vertex_id : String)
    (state : VertexExecutionState) (output_data : Option Json) (now : DateTime) :
    Except EngineError WorkflowStateManager :=
  mutateRecord m execution_id (applyVertexUpdate vertex_id state output_data now)

/-- The record as `set_execution_output` rewrites it. -/
def applySetOut (output_data : Json) (r : WorkflowExecutionStatus) :
    WorkflowExecutionStatus :=
  { r with output_data := some output_data }

/-- The record as `set_execution_error` rewrites it: `state = failed`,
message recorded, `end_time` stamped. -/
def applySetErr (error_message : String) (now : DateTime)
    (r : WorkflowExecutionStatus) : WorkflowExecutionStatus :=
  { r with state := .failed, error_message := some error_message, end_time := some now }

/-- Modelled from the spec: `set_execution_output`. -/
def set_execution_output (m : WorkflowStateManager) (execution_id : String)
    (output_data : Json) : Except EngineError WorkflowStateManager :=
  mutateRecord m execution_id (applySetOut output_data)

/-- Modelled from the spec: `set_execution_error` — record the message,
force `state = failed` and stamp `end_time`. -/
def set_execution_error (m : WorkflowStateManager) (execution_id : String)
    (error_message : String) (now : DateTime) : Except EngineError WorkflowStateManager :=
  mutateRecord m execution_id (applySetErr error_message now)

/-- Modelled from the spec: `get_execution_status` — single read plus
decode; `none` for a missing or unreadable record. -/
def get_execution_status (m : WorkflowStateManager) (execution_id : String) :
    Except EngineError (Option WorkflowExecutionStatus) :=
  if is_connected m = false then .error .connectionError else
  .ok (lookupRecord m execution_id)

/-- Fetch and decode the records behind a list of raw ids, silently
skipping ids whose record is missing or unreadable. -/
def fetchRecords (B : Backend) : List RawStr → List WorkflowExecutionStatus
  | [] => []
  | i :: rest =>
    match Backend.get B (recordKey (RawStr.norm i)) with
    | none => fetchRecords B rest
    | some j =>
      match decode j with
      | none => fetchRecords B rest
      | some r => r :: fetchRecords B rest

/-- Modelled from the spec: `get_workflow_executions` — up to `limit` ids
from the per-workflow index, most recent first, each resolved to its
record. -/
def get_workflow_executions (m : WorkflowStateManager) (workflow_id : String)
    (limit : Nat) : Except EngineError (List WorkflowExecutionStatus) :=
  if is_connected m = false then .error .connectionError else
  .ok (fetchRecords m.backend (List.take limit (Backend.listRangeAll m.backend (indexKey workflow_id))))

/-- Decode the records behind scanned keys and keep the running ones. -/
def collectActive (B : Backend) : List RawStr → List WorkflowExecutionStatus
  | [] => []
  | k :: rest =>
    match Backend.get B (RawStr.norm k) with
    | none => collectActive B rest
    | some j =>
      match decode j with
      | none => collectActive B rest
      | some r =>
        if r.state = .running then r :: collectActive B rest
        else collectActive B rest

/-- Modelled from the spec: `get_active_executions` — scan the record
namespace and retain the records whose state is `running`. -/
def get_active_executions (m : WorkflowStateManager) :
    Except EngineError (List WorkflowExecutionStatus) :=
  if is_connected m = false then .error .connectionError else
  .ok (collectActive m.backend (Backend.scanKeys m.backend recordPre))

/-- Modelled from the spec: `cancel_execution` — `False` for a missing or
unreadable record and for any state other than `running`; otherwise mark
the record cancelled, stamp `end_time`, write back and return `True`. -/
def cancel_execution (m : WorkflowStateManager) (execution_id : String)
    (now : DateTime) : Except EngineError (Bool × WorkflowStateManager) :=
  if is_connected m = false then .error .connectionError else
  match Backend.get m.backend (recordKey execution_id) with
  | none => .ok (false, m)
  | some j =>
    match decode j with
    | none => .ok (false, m)
    | some r =>
      if r.state = .running then
        .ok (true, writeRecord m execution_id
          { r with state := .cancelled, end_time := some now })
      else .ok (false, m)

theorem getA_setA_same {α : Type} :
    ∀ (l : List (RawStr × α)) (key : String) (v : α), getA (setA l key v) key = some v
  | [], key, v => by simp [getA, setA, RawStr.norm]
  | (k, v0) :: rest, key, v => by
    by_cases h : RawStr.norm k = key
    · simp [getA, setA, h]
    · simp [getA, setA, h, getA_setA_same rest key v]

theorem getA_setA_other {α : Type} :
    ∀ (l : List (RawStr × α)) (key key2 : String) (v : α), key2 ≠ key →
      getA (setA l key v) key2 = getA l key2
  | [], key, key2, v, hne => by
    simp [getA, setA, RawStr.norm, Ne.symm hne]
  | (k, v0) :: rest, key, key2, v, hne => by
    by_cases h : RawStr.norm k = key
    · simp [getA, setA, h, Ne.symm hne]
    · simp [getA, setA, h, getA_setA_other rest key key2 v hne]

theorem getA_removeA_same {α : Type} (l : List (RawStr × α)) (key : String) :
    getA (removeA l key) key = none := by
  induction l with
  | nil => simp [getA, removeA]
  | cons e rest ih =>
    obtain ⟨k, v⟩ := e
    by_cases h : RawStr.norm k = key
    · simpa [removeA, h] using ih
    · simpa [removeA, getA, h] using ih

theorem getA_removeA_other {α : Type} (l : List (RawStr × α)) (key key2 : String)
    (hne : key2 ≠ key) : getA (removeA l key) key2 = getA l key2 := by
  induction l with
  | nil => simp [getA, removeA]
  | cons e rest ih =>
    obtain ⟨k, v⟩ := e
    by_cases h : RawStr.norm k = key
    · simpa [removeA, getA, h, Ne.symm hne] using ih
    · simp [removeA, getA, h, ih]

theorem getVS_setVS_same :
    ∀ (l : List (String × VertexRecord)) (key : String) (v : VertexRecord),
      getVS (setVS l key v) key = some v
  | [], key, v => by simp [getVS, setVS]
  | (k, v0) :: rest, key, v => by
    by_cases h : k = key
    · simp [getVS, setVS, h]
    · simp [getVS, setVS, h, getVS_setVS_same rest key v]

theorem getVS_setVS_other :
    ∀ (l : List (String × VertexRecord)) (key key2 : String) (v : VertexRecord),
      key2 ≠ key → getVS (setVS l key v) key2 = getVS l key2
  | [], key, key2, v, hne => by
    simp [getVS, setVS, Ne.symm hne]
  | (k, v0) :: rest, key, key2, v, hne => by
    by_cases h : k = key
    · have hk2 : k ≠ key2 := by
        rw [h]
        exact Ne.symm hne
      simp [getVS, setVS, h, hk2, Ne.symm hne]
    · simp [getVS, setVS, h, getVS_setVS_other rest key key2 v hne]

theorem listHasPre_append : ∀ (p rest : List Char), listHasPre p (p ++ rest) = true
  | [], rest => rfl
  | a :: as, rest => by simp [listHasPre, listHasPre_append as rest]

theorem strHasPre_append (p rest : String) : strHasPre p (p ++ rest) = true := by
  unfold strHasPre
  rw [String.data_append]
  exact listHasPre_append p.data rest.data

theorem str_append_left_cancel (p a b : String) (h : p ++ a = p ++ b) : a = b := by
  apply String.ext
  have hd : p.data ++ a.data = p.data ++ b.data := by
    rw [← String.data_append, ← String.data_append, h]
  exact List.append_cancel_left hd

theorem recordKey_inj (a b : String) (h : recordKey a = recordKey b) : a = b :=
  str_append_left_cancel _ _ _ h

theorem execId_inj (wf t1 t2 : String)
    (h : "wf_exec_" ++ wf ++ "_" ++ t1 = "wf_exec_" ++ wf ++ "_" ++ t2) : t1 = t2 := by
  apply str_append_left_cancel ("wf_exec_" ++ wf ++ "_")
  rw [String.append_assoc, String.append_assoc] at h ⊢
  simpa [← String.append_assoc] using h

/-- C1: for every valid `WorkflowExecutionRecord` (nested vertex entries,
enum states, timestamps, optional fields possibly absent), decoding the
encoding yields the record back, with states serialized as their lowercase
symbolic names and timestamps as ISO-8601 strings. -/
theorem round_trip_decode_encode (r : WorkflowExecutionStatus) (h : r.Valid) :
    decode (encode r) = some r ∧
    (∃ fs, encode r = Json.obj fs ∧
      jGet fs "state" = some (.str (stateName r.state)) ∧
      jGet fs "start_time" = some (.str (isoOfDateTime r.start_time))) := by
  refine ⟨decode_encode_of_valid r h, _, rfl, ?_, ?_⟩ <;> simp [encode, jGet]

/-- A sample valid record exercising nested vertex entries, enum states,
timestamps, and absent optional fields. -/
def rSample : WorkflowExecutionStatus :=
  { execution_id := "wf_exec_wf1_20240115123045"
    workflow_id := "wf1"
    workflow_name := "My Workflow"
    state := .running
    start_time := ⟨2024, 1, 15, 12, 30, 45, 123456⟩
    end_time := none
    input_data := .obj (.cons "x" (.num 1) .nil)
    output_data := none
    error_message := none
    current_vertex := some "a"
    progress_percentage := some 25
    vertex_states := [("a", ⟨.completed, ⟨2024, 1, 15, 12, 31, 0, 0⟩,
      some (.obj (.cons "y" (.num 2) .nil))⟩)] }

theorem round_trip_decode_encode_witness :
    rSample.Valid ∧ decode (encode rSample) = some rSample :=
  ⟨by decide, (round_trip_decode_encode rSample (by decide)).1⟩

/-- C2: on a connected manager, `cancel_execution` returns `True`, sets
the state to `cancelled` and stamps `end_time` exactly when the stored
record exists and was `running`; for any other prior state and for an
unknown id it returns `False` and leaves the manager (hence every stored
record) unchanged. -/
theorem cancel_execution_guard (m : WorkflowStateManager) (execution_id : String)
    (now : DateTime) (hconn : is_connected m = true) :
    match lookupRecord m execution_id with
    | some r =>
      if r.state = .running then
        cancel_execution m execution_id now =
          .ok (true, writeRecord m execution_id
            { r with state := .cancelled, end_time := some now })
      else cancel_execution m execution_id now = .ok (false, m)
    | none => cancel_execution m execution_id now = .ok (false, m) := by
  unfold cancel_execution lookupRecord
  rcases hj : Backend.get m.backend (recordKey execution_id) with _ | j
  · simp [hconn, hj]
  · rcases hd : decode j with _ | r
    · simp [hconn, hj, hd]
    · by_cases hr : r.state = .running
      · simp [hconn, hj, hd, hr]
      · simp [hconn, hj, hd, hr]

/-- A running record stored under id `e1`. -/
def rRunning : WorkflowExecutionStatus :=
  { execution_id := "e1"
    workflow_id := "wf1"
    workflow_name := "My Workflow"
    state := .running
    start_time := ⟨2024, 1, 15, 12, 0, 0, 0⟩
    end_time := none
    input_data := .null
    output_data := none
    error_message := none
    current_vertex := none
    progress_percentage := none
    vertex_states := [] }

/-- A connected manager holding exactly the running record `e1`. -/
def mRun : WorkflowStateManager :=
  { enable_fallback := true
    remote_available := true
    default_ttl := 86400
    conn := .connectedRemote
    backend :=
      { kv := [(.str (recordKey "e1"), ⟨encode rRunning, 86400⟩)]
        lists := [] } }

theorem cancel_execution_guard_witness :
    is_connected mRun = true ∧
    (match lookupRecord mRun "e1" with
     | some r =>
       if r.state = .running then
         cancel_execution mRun "e1" ⟨2024, 1, 15, 13, 0, 0, 0⟩ =
           .ok (true, writeRecord mRun "e1"
             { r with state := .cancelled, end_time := some ⟨2024, 1, 15, 13, 0, 0, 0⟩ })
       else cancel_execution mRun "e1" ⟨2024, 1, 15, 13, 0, 0, 0⟩ = .ok (false, mRun)
     | none => cancel_execution mRun "e1" ⟨2024, 1, 15, 13, 0, 0, 0⟩ = .ok (false, mRun)) :=
  ⟨rfl, cancel_execution_guard mRun "e1" ⟨2024, 1, 15, 13, 0, 0, 0⟩ rfl⟩

/-- C7: on a connected manager, every mutation operation raises
`NotFoundError` when the execution id does not resolve to a stored
record. -/
theorem mutation_missing_not_found (m : WorkflowStateManager)
    (execution_id vertex_id msg : String) (st : WorkflowExecutionState)
    (cv : Option String) (pp : Option Rat) (vst : VertexExecutionState)
    (od : Option Json) (odata : Json) (now : DateTime)
    (hconn : is_connected m = true)
    (habs : Backend.get m.backend (recordKey execution_id) = none) :
    update_execution_state m execution_id st cv pp = .error .notFoundError ∧
    update_vertex_state m execution_id vertex_id vst od now = .error .notFoundError ∧
    set_execution_output m execution_id odata = .error .notFoundError ∧
    set_execution_error m execution_id msg now = .error .notFoundError := by
  unfold update_execution_state update_vertex_state set_execution_output
    set_execution_error mutateRecord
  simp [hconn, habs]

theorem mutation_missing_not_found_witness :
    (is_connected mRun = true ∧
      Backend.get mRun.backend (recordKey "nonexistent") = none) ∧
    update_execution_state mRun "nonexistent" .running none none = .error .notFoundError :=
  ⟨⟨rfl, by decide⟩,
    (mutation_missing_not_found mRun "nonexistent" "v" "err" .running none none
      .completed none .null ⟨2024, 1, 15, 13, 0, 0, 0⟩ rfl (by decide)).1⟩

/-- C8: `connect` fails with a connection error exactly when the remote
backend is unreachable and fallback is disabled; with fallback enabled the
failure is swallowed and the manager comes up connected to the in-memory
backend; and every execution operation invoked before a successful
`connect` fails with a connection error. -/
theorem connection_fallback_policy (m : WorkflowStateManager)
    (execution_id workflow_id workflow_name vertex_id msg token : String)
    (input_data odata : Json) (now : DateTime) (st : WorkflowExecutionState)
    (vst : VertexExecutionState) (cv : Option String) (pp : Option Rat)
    (od : Option Json) (limit : Nat) :
    (connect m = .error .connectionError ↔
      (m.remote_available = false ∧ m.enable_fallback = false)) ∧
    (m.remote_available = false → m.enable_fallback = true →
      ∃ m2, connect m = .ok m2 ∧ m2.conn = .connectedFallback ∧
        m2.backend = Backend.empty ∧ is_connected m2 = true) ∧
    (m.conn = .disconnected →
      create_execution m workflow_id workflow_name input_data now token =
        .error .connectionError ∧
      update_execution_state m execution_id st cv pp = .error .connectionError ∧
      update_vertex_state m execution_id vertex_id vst od now = .error .connectionError ∧
      set_execution_output m execution_id odata = .error .connectionError ∧
      set_execution_error m execution_id msg now = .error .connectionError ∧
      get_execution_status m execution_id = .error .connectionError ∧
      get_workflow_executions m workflow_id limit = .error .connectionError ∧
      get_active_executions m = .error .connectionError ∧
      cancel_execution m execution_id now = .error .connectionError) := by
  refine ⟨?_, ?_, ?_⟩
  · unfold connect
    rcases hr : m.remote_available
    · rcases hf : m.enable_fallback <;> simp
    · simp
  · intro hr hf
    unfold connect
    rw [hr, hf]
    exact ⟨_, rfl, rfl, rfl, rfl⟩
  · intro hdisc
    have hc : is_connected m = false := by
      unfold is_connected
      rw [hdisc]
    unfold create_execution update_execution_state update_vertex_state
      set_execution_output set_execution_error get_execution_status
      get_workflow_executions get_active_executions cancel_execution mutateRecord
    simp [hc]

/-- A disconnected manager with fallback disabled and the remote
unreachable. -/
def mNoFB : WorkflowStateManager :=
  { enable_fallback := false
    remote_available := false
    default_ttl := 86400
    conn := .disconnected
    backend := Backend.empty }

/-- A disconnected manager with fallback enabled and the remote
unreachable. -/
def mFB : WorkflowStateManager :=
  { mNoFB with enable_fallback := true }

theorem connection_fallback_policy_witness :
    connect mNoFB = .error .connectionError ∧
    (∃ m2, connect mFB = .ok m2 ∧ m2.conn = .connectedFallback ∧
      m2.backend = Backend.empty ∧ is_connected m2 = true) ∧
    update_execution_state mNoFB "x" .running none none = .error .connectionError :=
  ⟨(connection_fallback_policy mNoFB "x" "wf" "n" "v" "msg" "tok" .null .null
      ⟨2024, 1, 1, 0, 0, 0, 0⟩ .running .completed none none none 5).1.mpr ⟨rfl, rfl⟩,
    (connection_fallback_policy mFB "x" "wf" "n" "v" "msg" "tok" .null .null
      ⟨2024, 1, 1, 0, 0, 0, 0⟩ .running .completed none none none 5).2.1 rfl rfl,
    ((connection_fallback_policy mNoFB "x" "wf" "n" "v" "msg" "tok" .null .null
      ⟨2024, 1, 1, 0, 0, 0, 0⟩ .running .completed none none none 5).2.2 rfl).2.1⟩

theorem freshExecRecord_valid (execution_id workflow_id workflow_name : String)
    (input_data : Json) (now : DateTime) (hv : now.Valid) :
    (freshExecRecord execution_id workflow_id workflow_name input_data now).Valid :=
  ⟨hv, trivial, by simp [freshExecRecord]⟩

theorem is_connected_set_backend (m : WorkflowStateManager) (B : Backend) :
    is_connected { m with backend := B } = is_connected m := rfl

/-- The manager state after a successful `create_execution` call: the
fresh record stored with the configured TTL and the id pushed onto the
per-workflow index. -/
def createdManager (m : WorkflowStateManager) (workflow_id workflow_name : String)
    (input_data : Json) (now : DateTime) (token : String) : WorkflowStateManager :=
  let execution_id := "wf_exec_" ++ workflow_id ++ "_" ++ token
  let B1 := Backend.setWithTTL m.backend (recordKey execution_id)
    (encode (freshExecRecord execution_id workflow_id workflow_name input_data now))
    m.default_ttl
  { m with backend := Backend.listPush B1 (indexKey workflow_id) execution_id }

/-- C3: on a connected manager, `create_execution` returns an id with the
`wf_exec_{workflow_id}_` prefix, stores under a TTL-carrying key a pending
record whose fields equal the arguments and whose vertex map is empty,
pushes the id onto the per-workflow index, and `get_execution_status` of
the new id immediately returns that pending record. -/
theorem create_execution_spec (m : WorkflowStateManager)
    (workflow_id workflow_name : String) (input_data : Json) (now : DateTime)
    (token : String) (hconn : is_connected m = true) (hv : now.Valid) :
    ∃ m2,
      create_execution m workflow_id workflow_name input_data now token =
        .ok ("wf_exec_" ++ workflow_id ++ "_" ++ token, m2) ∧
      strHasPre ("wf_exec_" ++ workflow_id ++ "_")
        ("wf_exec_" ++ workflow_id ++ "_" ++ token) = true ∧
      getA m2.backend.kv (recordKey ("wf_exec_" ++ workflow_id ++ "_" ++ token)) =
        some ⟨encode (freshExecRecord ("wf_exec_" ++ workflow_id ++ "_" ++ token)
          workflow_id workflow_name input_data now), m.default_ttl⟩ ∧
      Backend.listRangeAll m2.backend (indexKey workflow_id) =
        .str ("wf_exec_" ++ workflow_id ++ "_" ++ token) ::
          Backend.listRangeAll m.backend (indexKey workflow_id) ∧
      (freshExecRecord ("wf_exec_" ++ workflow_id ++ "_" ++ token)
        workflow_id workflow_name input_data now).state = .pending ∧
      (freshExecRecord ("wf_exec_" ++ workflow_id ++ "_" ++ token)
        workflow_id workflow_name input_data now).workflow_id = workflow_id ∧
      (freshExecRecord ("wf_exec_" ++ workflow_id ++ "_" ++ token)
        workflow_id workflow_name input_data now).workflow_name = workflow_name ∧
      (freshExecRecord ("wf_exec_" ++ workflow_id ++ "_" ++ token)
        workflow_id workflow_name input_data now).input_data = input_data ∧
      (freshExecRecord ("wf_exec_" ++ workflow_id ++ "_" ++ token)
        workflow_id workflow_name input_data now).vertex_states = [] ∧
      (freshExecRecord ("wf_exec_" ++ workflow_id ++ "_" ++ token)
        workflow_id workflow_name input_data now).start_time = now ∧
      get_execution_status m2 ("wf_exec_" ++ workflow_id ++ "_" ++ token) =
        .ok (some (freshExecRecord ("wf_exec_" ++ workflow_id ++ "_" ++ token)
          workflow_id workflow_name input_data now)) := by
  refine ⟨createdManager m workflow_id workflow_name input_data now token,
    ?_, strHasPre_append _ _, ?_, ?_, rfl, rfl, rfl, rfl, rfl, rfl, ?_⟩
  · simp [create_execution, createdManager, hconn]
  · simp [createdManager, Backend.listPush, Backend.setWithTTL, getA_setA_same]
  · simp [createdManager, Backend.listPush, Backend.setWithTTL, Backend.listRangeAll,
      getA_setA_same]
  · have hval := freshExecRecord_valid ("wf_exec_" ++ workflow_id ++ "_" ++ token)
      workflow_id workflow_name input_data now hv
    simp [createdManager, get_execution_status, is_connected_set_backend, hconn,
      lookupRecord, Backend.get, Backend.listPush, Backend.setWithTTL, getA_setA_same,
      decode_encode_of_valid _ hval]

/-- A connected manager over an empty backend. -/
def mConn : WorkflowStateManager :=
  { enable_fallback := true
    remote_available := true
    default_ttl := 86400
    conn := .connectedRemote
    backend := Backend.empty }

/-- A sample in-bounds creation timestamp. -/
def dtW : DateTime := ⟨2024, 1, 15, 12, 0, 0, 0⟩

theorem create_execution_spec_witness :
    (is_connected mConn = true ∧ dtW.Valid) ∧
    (∃ m2,
      create_execution mConn "wf1" "My Workflow" .null dtW "tok1" =
        .ok ("wf_exec_" ++ "wf1" ++ "_" ++ "tok1", m2) ∧
      strHasPre ("wf_exec_" ++ "wf1" ++ "_") ("wf_exec_" ++ "wf1" ++ "_" ++ "tok1") = true ∧
      getA m2.backend.kv (recordKey ("wf_exec_" ++ "wf1" ++ "_" ++ "tok1")) =
        some ⟨encode (freshExecRecord ("wf_exec_" ++ "wf1" ++ "_" ++ "tok1")
          "wf1" "My Workflow" .null dtW), mConn.default_ttl⟩ ∧
      Backend.listRangeAll m2.backend (indexKey "wf1") =
        .str ("wf_exec_" ++ "wf1" ++ "_" ++ "tok1") ::
          Backend.listRangeAll mConn.backend (indexKey "wf1") ∧
      (freshExecRecord ("wf_exec_" ++ "wf1" ++ "_" ++ "tok1")
        "wf1" "My Workflow" .null dtW).state = .pending ∧
      (freshExecRecord ("wf_exec_" ++ "wf1" ++ "_" ++ "tok1")
        "wf1" "My Workflow" .null dtW).workflow_id = "wf1" ∧
      (freshExecRecord ("wf_exec_" ++ "wf1" ++ "_" ++ "tok1")
        "wf1" "My Workflow" .null dtW).workflow_name = "My Workflow" ∧
      (freshExecRecord ("wf_exec_" ++ "wf1" ++ "_" ++ "tok1")
        "wf1" "My Workflow" .null dtW).input_data = .null ∧
      (freshExecRecord ("wf_exec_" ++ "wf1" ++ "_" ++ "tok1")
        "wf1" "My Workflow" .null dtW).vertex_states = [] ∧
      (freshExecRecord ("wf_exec_" ++ "wf1" ++ "_" ++ "tok1")
        "wf1" "My Workflow" .null dtW).start_time = dtW ∧
      get_execution_status m2 ("wf_exec_" ++ "wf1" ++ "_" ++ "tok1") =
        .ok (some (freshExecRecord ("wf_exec_" ++ "wf1" ++ "_" ++ "tok1")
          "wf1" "My Workflow" .null dtW))) :=
  ⟨⟨rfl, by decide⟩,
    create_execution_spec mConn "wf1" "My Workflow" .null dtW "tok1" rfl (by decide)⟩

/-- C4: on an existing record, `update_execution_state` applies exactly
the state and the supplied optional fields and leaves every other field —
ids, names, times, payloads and the whole vertex map — unchanged; and
`update_vertex_state` creates or overwrites only the addressed vertex
entry, leaving every other vertex entry and all execution-level fields
unchanged. -/
theorem update_frame_spec (m : WorkflowStateManager) (execution_id vertex_id : String)
    (st : WorkflowExecutionState) (cv : Option String) (pp : Option Rat)
    (vst : VertexExecutionState) (od : Option Json) (now : DateTime)
    (j : Json) (r : WorkflowExecutionStatus)
    (hconn : is_connected m = true)
    (hj : Backend.get m.backend (recordKey execution_id) = some j)
    (hd : decode j = some r) :
    (∃ r2, update_execution_state m execution_id st cv pp =
        .ok (writeRecord m execution_id r2) ∧
      r2.state = st ∧
      r2.current_vertex = (match cv with | some v => some v | none => r.current_vertex) ∧
      r2.progress_percentage =
        (match pp with | some p => some p | none => r.progress_percentage) ∧
      r2.execution_id = r.execution_id ∧ r2.workflow_id = r.workflow_id ∧
      r2.workflow_name = r.workflow_name ∧ r2.start_time = r.start_time ∧
      r2.end_time = r.end_time ∧ r2.input_data = r.input_data ∧
      r2.output_data = r.output_data ∧ r2.error_message = r.error_message ∧
      r2.vertex_states = r.vertex_states) ∧
    (∃ r3, update_vertex_state m execution_id vertex_id vst od now =
        .ok (writeRecord m execution_id r3) ∧
      getVS r3.vertex_states vertex_id = some ⟨vst, now, od⟩ ∧
      (∀ v2, v2 ≠ vertex_id → getVS r3.vertex_states v2 = getVS r.vertex_states v2) ∧
      r3.state = r.state ∧ r3.execution_id = r.execution_id ∧
      r3.workflow_id = r.workflow_id ∧ r3.workflow_name = r.workflow_name ∧
      r3.start_time = r.start_time ∧ r3.end_time = r.end_time ∧
      r3.input_data = r.input_data ∧ r3.output_data = r.output_data ∧
      r3.error_message = r.error_message ∧ r3.current_vertex = r.current_vertex ∧
      r3.progress_percentage = r.progress_percentage) := by
  constructor
  · refine ⟨applyExecUpdate st cv pp r, ?_, rfl, rfl, rfl, rfl, rfl, rfl, rfl, rfl,
      rfl, rfl, rfl, rfl⟩
    unfold update_execution_state mutateRecord
    simp [hconn, hj, hd]
  · refine ⟨applyVertexUpdate vertex_id vst od now r, ?_,
      getVS_setVS_same _ _ _, fun v2 h2 => getVS_setVS_other _ _ _ _ h2,
      rfl, rfl, rfl, rfl, rfl, rfl, rfl, rfl, rfl, rfl, rfl⟩
    unfold update_vertex_state mutateRecord
    simp [hconn, hj, hd, applyVertexUpdate]

theorem update_frame_spec_witness :
    (is_connected mRun = true ∧
      Backend.get mRun.backend (recordKey "e1") = some (encode rRunning) ∧
      decode (encode rRunning) = some rRunning) ∧
    (∃ r2, update_execution_state mRun "e1" .running (some "v1") (some 25) =
        .ok (writeRecord mRun "e1" r2) ∧
      r2.state = .running ∧
      r2.current_vertex = some "v1" ∧
      r2.progress_percentage = some 25 ∧
      r2.execution_id = rRunning.execution_id ∧ r2.workflow_id = rRunning.workflow_id ∧
      r2.workflow_name = rRunning.workflow_name ∧ r2.start_time = rRunning.start_time ∧
      r2.end_time = rRunning.end_time ∧ r2.input_data = rRunning.input_data ∧
      r2.output_data = rRunning.output_data ∧ r2.error_message = rRunning.error_message ∧
      r2.vertex_states = rRunning.vertex_states) ∧
    (∃ r3, update_vertex_state mRun "e1" "v1" .completed (some .null) dtW =
        .ok (writeRecord mRun "e1" r3) ∧
      getVS r3.vertex_states "v1" = some ⟨.completed, dtW, some .null⟩ ∧
      (∀ v2, v2 ≠ "v1" → getVS r3.vertex_states v2 = getVS rRunning.vertex_states v2) ∧
      r3.state = rRunning.state ∧ r3.execution_id = rRunning.execution_id ∧
      r3.workflow_id = rRunning.workflow_id ∧ r3.workflow_name = rRunning.workflow_name ∧
      r3.start_time = rRunning.start_time ∧ r3.end_time = rRunning.end_time ∧
      r3.input_data = rRunning.input_data ∧ r3.output_data = rRunning.output_data ∧
      r3.error_message = rRunning.error_message ∧
      r3.current_vertex = rRunning.current_vertex ∧
      r3.progress_percentage = rRunning.progress_percentage) := by
  have hd : decode (encode rRunning) = some rRunning :=
    decode_encode_of_valid rRunning (by decide)
  have h := update_frame_spec mRun "e1" "v1" .running (some "v1") (some 25)
    .completed (some .null) dtW (encode rRunning) rRunning rfl rfl hd
  exact ⟨⟨rfl, rfl, hd⟩, h.1, h.2⟩

theorem mem_collectActive (B : Backend) (r : WorkflowExecutionStatus) :
    ∀ (keys : List RawStr),
      r ∈ collectActive B keys ↔
        ∃ k ∈ keys, ∃ j, Backend.get B (RawStr.norm k) = some j ∧
          decode j = some r ∧ r.state = .running
  | [] => by simp [collectActive]
  | k0 :: rest => by
    have ih := mem_collectActive B r rest
    rcases hj : Backend.get B (RawStr.norm k0) with _ | j
    · simp [collectActive, hj, ih]
    · rcases hd : decode j with _ | r0
      · simp [collectActive, hj, hd, ih]
      · by_cases hr : r0.state = .running
        · simp only [collectActive, hj, hd]
          rw [if_pos hr]
          constructor
          · intro hmem
            rcases List.mem_cons.mp hmem with heq | hmem2
            · refine ⟨k0, List.mem_cons_self _ _, j, hj, ?_, ?_⟩
              · rw [heq]
                exact hd
              · rw [heq]
                exact hr
            · obtain ⟨k, hk, j2, hj2, hd2, hrun⟩ := ih.mp hmem2
              exact ⟨k, List.mem_cons_of_mem _ hk, j2, hj2, hd2, hrun⟩
          · rintro ⟨k, hk, j2, hj2, hd2, hrun⟩
            rcases List.mem_cons.mp hk with heqk | hk2
            · subst heqk
              rw [hj, Option.some.injEq] at hj2
              subst hj2
              rw [hd, Option.some.injEq] at hd2
              subst hd2
              exact List.mem_cons_self _ _
            · exact List.mem_cons_of_mem _ (ih.mpr ⟨k, hk2, j2, hj2, hd2, hrun⟩)
        · simp only [collectActive, hj, hd]
          rw [if_neg hr]
          constructor
          · intro hmem
            obtain ⟨k, hk, j2, hj2, hd2, hrun⟩ := ih.mp hmem
            exact ⟨k, List.mem_cons_of_mem _ hk, j2, hj2, hd2, hrun⟩
          · rintro ⟨k, hk, j2, hj2, hd2, hrun⟩
            rcases List.mem_cons.mp hk with heqk | hk2
            · subst heqk
              rw [hj, Option.some.injEq] at hj2
              subst hj2
              rw [hd, Option.some.injEq] at hd2
              subst hd2
              exact absurd hrun hr
            · exact ih.mpr ⟨k, hk2, j2, hj2, hd2, hrun⟩

theorem getA_of_mem_nodup {α : Type} :
    ∀ (l : List (RawStr × α)) (k : RawStr) (v : α),
      (l.map (fun e => RawStr.norm e.1)).Nodup → (k, v) ∈ l →
        getA l (RawStr.norm k) = some v
  | [], k, v, _, hm => by cases hm
  | (k0, v0) :: rest, k, v, hnd, hm => by
    simp only [List.map_cons, List.nodup_cons] at hnd
    obtain ⟨hnotin, hnd2⟩ := hnd
    rcases List.mem_cons.mp hm with heq | hm2
    · cases heq
      simp [getA]
    · have hk : RawStr.norm k ∈ rest.map (fun e => RawStr.norm e.1) :=
        List.mem_map.mpr ⟨(k, v), hm2, rfl⟩
      have hne : RawStr.norm k0 ≠ RawStr.norm k := by
        intro hcontra
        rw [hcontra] at hnotin
        exact hnotin hk
      simp only [getA, hne, if_neg]
      exact getA_of_mem_nodup rest k v hnd2 hm2

/-- C6: `get_active_executions` returns exactly the stored records under
the record-key namespace whose state is `running`: a record is in the
result precisely when some stored entry under the prefix decodes to it and
its state is `running` (stated for backends whose key texts are distinct,
as every reachable backend's are). -/
theorem active_executions_filter (m : WorkflowStateManager)
    (hconn : is_connected m = true)
    (hnd : (m.backend.kv.map (fun e => RawStr.norm e.1)).Nodup)
    (r : WorkflowExecutionStatus) :
    ∃ l, get_active_executions m = .ok l ∧
      (r ∈ l ↔ ∃ k e, (k, e) ∈ m.backend.kv ∧
        strHasPre recordPre (RawStr.norm k) = true ∧
        decode e.value = some r ∧ r.state = .running) := by
  refine ⟨collectActive m.backend (Backend.scanKeys m.backend recordPre), ?_, ?_⟩
  · simp [get_active_executions, hconn]
  · rw [mem_collectActive]
    constructor
    · rintro ⟨k, hk, j, hjget, hdec, hrun⟩
      unfold Backend.scanKeys at hk
      obtain ⟨hkmem, hkpre⟩ := List.mem_filter.mp hk
      obtain ⟨⟨k2, e⟩, hke, hkeq⟩ := List.mem_map.mp hkmem
      cases hkeq
      have hget := getA_of_mem_nodup m.backend.kv k2 e hnd hke
      unfold Backend.get at hjget
      rw [hget] at hjget
      simp at hjget
      refine ⟨k2, e, hke, hkpre, ?_, hrun⟩
      rw [hjget]
      exact hdec
    · rintro ⟨k, e, hke, hpre, hdec, hrun⟩
      refine ⟨k, ?_, e.value, ?_, hdec, hrun⟩
      · unfold Backend.scanKeys
        exact List.mem_filter.mpr ⟨List.mem_map.mpr ⟨(k, e), hke, rfl⟩, hpre⟩
      · unfold Backend.get
        rw [getA_of_mem_nodup m.backend.kv k e hnd hke]
        rfl

/-- A completed record stored under id `e2`. -/
def rDone : WorkflowExecutionStatus :=
  { execution_id := "e2"
    workflow_id := "wf1"
    workflow_name := "My Workflow"
    state := .completed
    start_time := ⟨2024, 1, 15, 11, 0, 0, 0⟩
    end_time := some ⟨2024, 1, 15, 11, 30, 0, 0⟩
    input_data := .null
    output_data := none
    error_message := none
    current_vertex := none
    progress_percentage := none
    vertex_states := [] }

/-- A connected manager holding one running and one completed record. -/
def mTwo : WorkflowStateManager :=
  { enable_fallback := true
    remote_available := true
    default_ttl := 86400
    conn := .connectedRemote
    backend :=
      { kv := [(.str (recordKey "e1"), ⟨encode rRunning, 86400⟩),
               (.str (recordKey "e2"), ⟨encode rDone, 86400⟩)]
        lists := [] } }

theorem active_executions_filter_witness :
    (is_connected mTwo = true ∧
      (mTwo.backend.kv.map (fun e => RawStr.norm e.1)).Nodup) ∧
    (∃ l, get_active_executions mTwo = .ok l ∧
      (rRunning ∈ l ↔ ∃ k e, (k, e) ∈ mTwo.backend.kv ∧
        strHasPre recordPre (RawStr.norm k) = true ∧
        decode e.value = some rRunning ∧ rRunning.state = .running)) :=
  ⟨⟨rfl, by decide⟩, active_executions_filter mTwo rfl (by decide) rRunning⟩

theorem getA_map_kv {α β : Type} (f : String → RawStr)
    (hf : ∀ s, RawStr.norm (f s) = s) (g : α → β) :
    ∀ (l : List (RawStr × α)) (key : String),
      getA (l.map (fun e => (f (RawStr.norm e.1), g e.2))) key = (getA l key).map g
  | [], key => rfl
  | (k, v) :: rest, key => by
    simp only [List.map_cons, getA, hf]
    by_cases h : RawStr.norm k = key <;>
      simp [h, getA_map_kv f hf g rest key]

theorem get_retag (B : Backend) (f : String → RawStr)
    (hf : ∀ s, RawStr.norm (f s) = s) (key : String) :
    Backend.get (B.retag f) key = Backend.get B key := by
  unfold Backend.get Backend.retag
  rw [show (B.kv.map fun e => (f (RawStr.norm e.1), e.2)) =
      (B.kv.map fun e => (f (RawStr.norm e.1), id e.2)) from rfl]
  rw [getA_map_kv f hf id B.kv key]
  simp

theorem listRangeAll_retag (B : Backend) (f : String → RawStr)
    (hf : ∀ s, RawStr.norm (f s) = s) (key : String) :
    Backend.listRangeAll (B.retag f) key =
      (Backend.listRangeAll B key).map (fun r => f (RawStr.norm r)) := by
  unfold Backend.listRangeAll Backend.retag
  rw [getA_map_kv f hf _ B.lists key]
  rcases getA B.lists key with _ | l <;> simp

theorem scanKeys_retag_aux (f : String → RawStr)
    (hf : ∀ s, RawStr.norm (f s) = s) (pre : String) :
    ∀ (l : List (RawStr × KVEntry)),
      ((l.map (fun e => (f (RawStr.norm e.1), e.2))).map Prod.fst).filter
          (fun k => strHasPre pre (RawStr.norm k)) =
        ((l.map Prod.fst).filter (fun k => strHasPre pre (RawStr.norm k))).map
          (fun k => f (RawStr.norm k))
  | [] => rfl
  | (k, v) :: rest => by
    have ih := scanKeys_retag_aux f hf pre rest
    simp only [List.map_map] at ih ⊢
    simp only [List.map_cons, List.filter_cons, hf, Function.comp] at ih ⊢
    rcases hp : strHasPre pre (RawStr.norm k) <;> simp [hp, ih]

theorem scanKeys_retag (B : Backend) (f : String → RawStr)
    (hf : ∀ s, RawStr.norm (f s) = s) (pre : String) :
    Backend.scanKeys (B.retag f) pre =
      (Backend.scanKeys B pre).map (fun k => f (RawStr.norm k)) := by
  unfold Backend.scanKeys Backend.retag
  exact scanKeys_retag_aux f hf pre B.kv

theorem fetchRecords_retag (B : Backend) (f : String → RawStr)
    (hf : ∀ s, RawStr.norm (f s) = s) :
    ∀ (ids : List RawStr),
      fetchRecords (B.retag f) (ids.map (fun r => f (RawStr.norm r))) =
        fetchRecords B ids
  | [] => rfl
  | i :: rest => by
    simp only [List.map_cons, fetchRecords, hf, get_retag B f hf,
      fetchRecords_retag B f hf rest]

theorem collectActive_retag (B : Backend) (f : String → RawStr)
    (hf : ∀ s, RawStr.norm (f s) = s) :
    ∀ (keys : List RawStr),
      collectActive (B.retag f) (keys.map (fun k => f (RawStr.norm k))) =
        collectActive B keys
  | [] => rfl
  | k :: rest => by
    simp only [List.map_cons, collectActive, hf, get_retag B f hf,
      collectActive_retag B f hf rest]

/-- C10: `get_workflow_executions` and `get_active_executions` accept the
ids and keys the backend hands back as byte strings, normalize them, and
return exactly the results they return when the backend hands back
ordinary strings. -/
theorem byte_key_normalization (m : WorkflowStateManager) (workflow_id : String)
    (limit : Nat) :
    get_workflow_executions { m with backend := m.backend.retag RawStr.bytes }
        workflow_id limit = get_workflow_executions m workflow_id limit ∧
    get_active_executions { m with backend := m.backend.retag RawStr.bytes } =
      get_active_executions m := by
  have hf : ∀ s, RawStr.norm (RawStr.bytes s) = s := fun s => rfl
  constructor
  · unfold get_workflow_executions
    rw [is_connected_set_backend]
    rcases hc : is_connected m
    · simp
    · simp only [Bool.true_eq_false, if_false]
      congr 1
      rw [listRangeAll_retag _ _ hf, ← List.map_take, fetchRecords_retag _ _ hf]
  · unfold get_active_executions
    rw [is_connected_set_backend]
    rcases hc : is_connected m
    · simp
    · simp only [Bool.true_eq_false, if_false]
      congr 1
      rw [scanKeys_retag _ _ hf, collectActive_retag _ _ hf]

theorem listRangeAll_push (B : Backend) (key : String) (v : String) :
    Backend.listRangeAll (B.listPush key v) key =
      RawStr.str v :: Backend.listRangeAll B key := by
  unfold Backend.listPush Backend.listRangeAll
  rw [getA_setA_same]
  rfl

theorem listRangeAll_setWithTTL (B : Backend) (key key2 : String) (v : Json) (ttl : Nat) :
    Backend.listRangeAll (B.setWithTTL key v ttl) key2 = Backend.listRangeAll B key2 := rfl

theorem listRangeAll_expire (B : Backend) (key key2 : String) :
    Backend.listRangeAll (B.expireKey key) key2 = Backend.listRangeAll B key2 := rfl

theorem get_push (B : Backend) (key : String) (v : String) (key2 : String) :
    Backend.get (B.listPush key v) key2 = Backend.get B key2 := rfl

theorem get_setWithTTL_same (B : Backend) (key : String) (v : Json) (ttl : Nat) :
    Backend.get (B.setWithTTL key v ttl) key = some v := by
  unfold Backend.get Backend.setWithTTL
  rw [getA_setA_same]
  rfl

theorem get_setWithTTL_other (B : Backend) (key key2 : String) (v : Json) (ttl : Nat)
    (h : key2 ≠ key) :
    Backend.get (B.setWithTTL key v ttl) key2 = Backend.get B key2 := by
  unfold Backend.get Backend.setWithTTL
  rw [getA_setA_other _ _ _ _ h]

theorem get_expire_same (B : Backend) (key : String) :
    Backend.get (B.expireKey key) key = none := by
  unfold Backend.get Backend.expireKey
  rw [getA_removeA_same]
  rfl

theorem get_expire_other (B : Backend) (key key2 : String) (h : key2 ≠ key) :
    Backend.get (B.expireKey key) key2 = Backend.get B key2 := by
  unfold Backend.get Backend.expireKey
  rw [getA_removeA_other _ _ _ h]

theorem take_three {α : Type} (a b c : α) (l : List α) :
    List.take 3 (a :: b :: c :: l) = [a, b, c] := rfl

theorem fetchRecords_length_le (B : Backend) :
    ∀ ids : List RawStr, (fetchRecords B ids).length ≤ ids.length
  | [] => Nat.le_refl 0
  | i :: rest => by
    have ih := fetchRecords_length_le B rest
    simp only [fetchRecords, List.length_cons]
    split
    · exact Nat.le_succ_of_le ih
    · split
      · exact Nat.le_succ_of_le ih
      · simpa using Nat.succ_le_succ ih

/-- C5: executions created in order `e1, e2, e3` for one workflow come
back from `get_workflow_executions` most-recently-created first
(`e3, e2, e1` at limit 3); the result never exceeds the limit; and an id
whose record has expired is silently skipped. -/
theorem workflow_executions_ordering (m : WorkflowStateManager)
    (wf n1 n2 n3 t1 t2 t3 : String) (i1 i2 i3 : Json) (d1 d2 d3 : DateTime)
    (id1 id2 id3 : String) (m1 m2 m3 : WorkflowStateManager)
    (hconn : is_connected m = true)
    (hv1 : d1.Valid) (hv2 : d2.Valid) (hv3 : d3.Valid)
    (h12 : t1 ≠ t2) (h13 : t1 ≠ t3) (h23 : t2 ≠ t3)
    (hc1 : create_execution m wf n1 i1 d1 t1 = .ok (id1, m1))
    (hc2 : create_execution m1 wf n2 i2 d2 t2 = .ok (id2, m2))
    (hc3 : create_execution m2 wf n3 i3 d3 t3 = .ok (id3, m3)) :
    get_workflow_executions m3 wf 3 =
      .ok [freshExecRecord id3 wf n3 i3 d3, freshExecRecord id2 wf n2 i2 d2,
        freshExecRecord id1 wf n1 i1 d1] ∧
    (∀ lim, ∃ l, get_workflow_executions m3 wf lim = .ok l ∧ l.length ≤ lim) ∧
    get_workflow_executions
        { m3 with backend := m3.backend.expireKey (recordKey id2) } wf 3 =
      .ok [freshExecRecord id3 wf n3 i3 d3, freshExecRecord id1 wf n1 i1 d1] := by
  simp only [create_execution, hconn, Bool.true_eq_false, if_false,
    is_connected_set_backend, Except.ok.injEq, Prod.mk.injEq] at hc1
  obtain ⟨hid1, hm1⟩ := hc1
  subst hid1
  subst hm1
  simp only [create_execution, hconn, Bool.true_eq_false, if_false,
    is_connected_set_backend, Except.ok.injEq, Prod.mk.injEq] at hc2
  obtain ⟨hid2, hm2⟩ := hc2
  subst hid2
  subst hm2
  simp only [create_execution, hconn, Bool.true_eq_false, if_false,
    is_connected_set_backend, Except.ok.injEq, Prod.mk.injEq] at hc3
  obtain ⟨hid3, hm3⟩ := hc3
  subst hid3
  subst hm3
  have hk12 : recordKey ("wf_exec_" ++ wf ++ "_" ++ t1) ≠
      recordKey ("wf_exec_" ++ wf ++ "_" ++ t2) :=
    fun h => h12 (execId_inj wf t1 t2 (recordKey_inj _ _ h))
  have hk13 : recordKey ("wf_exec_" ++ wf ++ "_" ++ t1) ≠
      recordKey ("wf_exec_" ++ wf ++ "_" ++ t3) :=
    fun h => h13 (execId_inj wf t1 t3 (recordKey_inj _ _ h))
  have hk23 : recordKey ("wf_exec_" ++ wf ++ "_" ++ t2) ≠
      recordKey ("wf_exec_" ++ wf ++ "_" ++ t3) :=
    fun h => h23 (execId_inj wf t2 t3 (recordKey_inj _ _ h))
  have hk32 : recordKey ("wf_exec_" ++ wf ++ "_" ++ t3) ≠
      recordKey ("wf_exec_" ++ wf ++ "_" ++ t2) := Ne.symm hk23
  have hd1 : decode (encode (freshExecRecord ("wf_exec_" ++ wf ++ "_" ++ t1) wf n1 i1 d1)) =
      some (freshExecRecord ("wf_exec_" ++ wf ++ "_" ++ t1) wf n1 i1 d1) :=
    decode_encode_of_valid _ (freshExecRecord_valid _ _ _ _ _ hv1)
  have hd2 : decode (encode (freshExecRecord ("wf_exec_" ++ wf ++ "_" ++ t2) wf n2 i2 d2)) =
      some (freshExecRecord ("wf_exec_" ++ wf ++ "_" ++ t2) wf n2 i2 d2) :=
    decode_encode_of_valid _ (freshExecRecord_valid _ _ _ _ _ hv2)
  have hd3 : decode (encode (freshExecRecord ("wf_exec_" ++ wf ++ "_" ++ t3) wf n3 i3 d3)) =
      some (freshExecRecord ("wf_exec_" ++ wf ++ "_" ++ t3) wf n3 i3 d3) :=
    decode_encode_of_valid _ (freshExecRecord_valid _ _ _ _ _ hv3)
  refine ⟨?_, ?_, ?_⟩
  · simp only [get_workflow_executions, is_connected_set_backend, hconn,
      Bool.true_eq_false, if_false]
    rw [listRangeAll_push, listRangeAll_setWithTTL, listRangeAll_push,
      listRangeAll_setWithTTL, listRangeAll_push, listRangeAll_setWithTTL,
      take_three]
    simp only [fetchRecords, RawStr.norm, get_push, get_setWithTTL_same,
      get_setWithTTL_other, hk12, hk13, hk23, hd1, hd2, hd3,
      ne_eq, not_false_eq_true]
  · intro lim
    simp only [get_workflow_executions, is_connected_set_backend, hconn,
      Bool.true_eq_false, if_false]
    refine ⟨_, rfl, ?_⟩
    exact le_trans (fetchRecords_length_le _ _) (List.length_take_le _ _)
  · simp only [get_workflow_executions, is_connected_set_backend, hconn,
      Bool.true_eq_false, if_false]
    rw [listRangeAll_expire, listRangeAll_push, listRangeAll_setWithTTL,
      listRangeAll_push, listRangeAll_setWithTTL, listRangeAll_push,
      listRangeAll_setWithTTL, take_three]
    simp only [fetchRecords, RawStr.norm, get_expire_same, get_expire_other,
      get_push, get_setWithTTL_same, get_setWithTTL_other, hk12, hk13, hk23, hk32,
      hd1, hd2, hd3, ne_eq, not_false_eq_true]

/-- The manager after creating execution `t1` on the empty connected
manager. -/
def mW1 : WorkflowStateManager := createdManager mConn "wf1" "N1" .null dtW "t1"

/-- The manager after a second creation, token `t2`. -/
def mW2 : WorkflowStateManager := createdManager mW1 "wf1" "N2" .null dtW "t2"

/-- The manager after a third creation, token `t3`. -/
def mW3 : WorkflowStateManager := createdManager mW2 "wf1" "N3" .null dtW "t3"

theorem workflow_executions_ordering_witness :
    (is_connected mConn = true ∧ dtW.Valid ∧ ("t1" : String) ≠ "t2" ∧
      ("t1" : String) ≠ "t3" ∧ ("t2" : String) ≠ "t3") ∧
    (get_workflow_executions mW3 "wf1" 3 =
      .ok [freshExecRecord ("wf_exec_" ++ "wf1" ++ "_" ++ "t3") "wf1" "N3" .null dtW,
        freshExecRecord ("wf_exec_" ++ "wf1" ++ "_" ++ "t2") "wf1" "N2" .null dtW,
        freshExecRecord ("wf_exec_" ++ "wf1" ++ "_" ++ "t1") "wf1" "N1" .null dtW] ∧
    (∀ lim, ∃ l, get_workflow_executions mW3 "wf1" lim = .ok l ∧ l.length ≤ lim) ∧
    get_workflow_executions
        { mW3 with backend :=
            mW3.backend.expireKey (recordKey ("wf_exec_" ++ "wf1" ++ "_" ++ "t2")) }
        "wf1" 3 =
      .ok [freshExecRecord ("wf_exec_" ++ "wf1" ++ "_" ++ "t3") "wf1" "N3" .null dtW,
        freshExecRecord ("wf_exec_" ++ "wf1" ++ "_" ++ "t1") "wf1" "N1" .null dtW]) :=
  ⟨⟨rfl, by decide, by decide, by decide, by decide⟩,
    workflow_executions_ordering mConn "wf1" "N1" "N2" "N3" "t1" "t2" "t3"
      .null .null .null dtW dtW dtW
      ("wf_exec_" ++ "wf1" ++ "_" ++ "t1") ("wf_exec_" ++ "wf1" ++ "_" ++ "t2")
      ("wf_exec_" ++ "wf1" ++ "_" ++ "t3") mW1 mW2 mW3
      rfl (by decide) (by decide) (by decide) (by decide) (by decide) (by decide)
      rfl rfl rfl⟩

/-- The terminal states of the §4 state machine. -/
def isTerminal : WorkflowExecutionState → Bool
  | .completed => true
  | .failed => true
  | .cancelled => true
  | .pending => false
  | .running => false

/-- Terminality of an optional (possibly missing) state. -/
def isTerminalO : Option WorkflowExecutionState → Bool
  | some st => isTerminal st
  | none => false

/-- The state currently stored for an execution id, when readable. -/
def stateOf (m : WorkflowStateManager) (execution_id : String) :
    Option WorkflowExecutionState :=
  (lookupRecord m execution_id).map (fun r => r.state)

/-- One invocation of a public mutating operation of the manager. -/
inductive StateOp where
  | updExec (execution_id : String) (state : WorkflowExecutionState)
      (current_vertex : Option String) (progress_percentage : Option Rat)
  | updVertex (execution_id vertex_id : String) (state : VertexExecutionState)
      (output_data : Option Json) (now : DateTime)
  | setOut (execution_id : String) (output_data : Json)
  | setErr (execution_id : String) (error_message : String) (now : DateTime)
  | cancel (execution_id : String) (now : DateTime)
deriving DecidableEq

/-- Run one operation, keeping the prior manager state when it errors. -/
def applyOp (m : WorkflowStateManager) : StateOp → WorkflowStateManager
  | .updExec id st cv pp =>
    match update_execution_state m id st cv pp with
    | .ok m2 => m2
    | .error _ => m
  | .updVertex id vid st od now =>
    match update_vertex_state m id vid st od now with
    | .ok m2 => m2
    | .error _ => m
  | .setOut id od =>
    match set_execution_output m id od with
    | .ok m2 => m2
    | .error _ => m
  | .setErr id msg now =>
    match set_execution_error m id msg now with
    | .ok m2 => m2
    | .error _ => m
  | .cancel id now =>
    match cancel_execution m id now with
    | .ok p => p.2
    | .error _ => m

/-- Run a sequence of operations left to right. -/
def applyOps (m : WorkflowStateManager) : List StateOp → WorkflowStateManager
  | [] => m
  | op :: rest => applyOps (applyOp m op) rest

/-- Whether the operation is an `update_execution_state` call. -/
def StateOp.isUpdExec : StateOp → Bool
  | .updExec _ _ _ _ => true
  | _ => false

/-- The timestamps an operation writes are in-bounds. -/
def StateOp.timesValid : StateOp → Prop
  | .updVertex _ _ _ _ now => now.Valid
  | .setErr _ _ now => now.Valid
  | _ => True

theorem lookup_writeRecord_other (m : WorkflowStateManager) (execution_id id2 : String)
    (r2 : WorkflowExecutionStatus) (h : recordKey execution_id ≠ recordKey id2) :
    lookupRecord (writeRecord m id2 r2) execution_id = lookupRecord m execution_id := by
  unfold lookupRecord writeRecord
  rw [get_setWithTTL_other _ _ _ _ _ h]

theorem lookup_writeRecord_same (m : WorkflowStateManager) (id2 : String)
    (r2 : WorkflowExecutionStatus) (hval : r2.Valid) :
    lookupRecord (writeRecord m id2 r2) id2 = some r2 := by
  unfold lookupRecord writeRecord
  rw [get_setWithTTL_same]
  simp [decode_encode_of_valid r2 hval]

theorem mem_setVS :
    ∀ (l : List (String × VertexRecord)) (key : String) (v : VertexRecord)
      (p : String × VertexRecord), p ∈ setVS l key v → p = (key, v) ∨ p ∈ l
  | [], key, v, p, hp => by
    simp [setVS] at hp
    exact Or.inl hp
  | (k, v0) :: rest, key, v, p, hp => by
    by_cases h : k = key
    · simp only [setVS, h, if_pos rfl] at hp
      rcases List.mem_cons.mp hp with heq | hmem
      · exact Or.inl heq
      · exact Or.inr (List.mem_cons_of_mem _ hmem)
    · simp only [setVS, h, if_neg h] at hp
      rcases List.mem_cons.mp hp with heq | hmem
      · rw [heq]
        exact Or.inr (List.mem_cons_self _ _)
      · rcases mem_setVS rest key v p hmem with h1 | h2
        · exact Or.inl h1
        · exact Or.inr (List.mem_cons_of_mem _ h2)

theorem applyVertexUpdate_valid (vertex_id : String) (st : VertexExecutionState)
    (od : Option Json) (now : DateTime) (r : WorkflowExecutionStatus)
    (hr : r.Valid) (hnow : now.Valid) :
    (applyVertexUpdate vertex_id st od now r).Valid := by
  obtain ⟨h1, h2, h3⟩ := hr
  refine ⟨h1, h2, ?_⟩
  intro p hp
  rcases mem_setVS _ _ _ _ hp with heq | hmem
  · rw [heq]
    exact hnow
  · exact h3 p hmem

theorem mutate_preserves_terminal (m : WorkflowStateManager) (execution_id id : String)
    (f : WorkflowExecutionStatus → WorkflowExecutionStatus)
    (hstate : ∀ r, (f r).state = r.state ∨ isTerminal ((f r).state) = true)
    (hvalid : ∀ r, r.Valid → (f r).Valid)
    (hterm : isTerminalO (stateOf m execution_id) = true) :
    isTerminalO (stateOf
      (match mutateRecord m id f with
       | .ok m2 => m2
       | .error _ => m) execution_id) = true := by
  rcases hc : is_connected m
  · have hres : mutateRecord m id f = .error .connectionError := by
      unfold mutateRecord
      simp [hc]
    rw [hres]
    exact hterm
  · rcases hj : Backend.get m.backend (recordKey id) with _ | j
    · have hres : mutateRecord m id f = .error .notFoundError := by
        unfold mutateRecord
        simp [hc, hj]
      rw [hres]
      exact hterm
    · rcases hd : decode j with _ | r
      · have hres : mutateRecord m id f = .error .decodeError := by
          unfold mutateRecord
          simp [hc, hj, hd]
        rw [hres]
        exact hterm
      · have hres : mutateRecord m id f = .ok (writeRecord m id (f r)) := by
          unfold mutateRecord
          simp [hc, hj, hd]
        rw [hres]
        by_cases hkey : recordKey execution_id = recordKey id
        · have hid : execution_id = id := recordKey_inj _ _ hkey
          subst hid
          have hrval := decode_valid _ _ hd
          have hfval := hvalid r hrval
          unfold stateOf
          rw [lookup_writeRecord_same _ _ _ hfval]
          rcases hstate r with hs | hs
          · have hlook : stateOf m execution_id = some r.state := by
              unfold stateOf lookupRecord
              rw [hj]
              simp [hd]
            rw [hlook] at hterm
            simpa [isTerminalO, hs] using hterm
          · simpa [isTerminalO] using hs
        · unfold stateOf
          rw [lookup_writeRecord_other _ _ _ _ hkey]
          exact hterm

theorem applyOp_preserves_terminal (m : WorkflowStateManager) (execution_id : String)
    (op : StateOp) (hop : op.isUpdExec = false) (ht : op.timesValid)
    (hterm : isTerminalO (stateOf m execution_id) = true) :
    isTerminalO (stateOf (applyOp m op) execution_id) = true := by
  cases op with
  | updExec id st cv pp => simp [StateOp.isUpdExec] at hop
  | updVertex id vid st od now =>
    have h := mutate_preserves_terminal m execution_id id
      (applyVertexUpdate vid st od now)
      (fun r => Or.inl rfl)
      (fun r hr => applyVertexUpdate_valid vid st od now r hr ht) hterm
    simpa [applyOp, update_vertex_state] using h
  | setOut id od =>
    have h := mutate_preserves_terminal m execution_id id (applySetOut od)
      (fun r => Or.inl rfl)
      (fun r hr => ⟨hr.1, hr.2.1, hr.2.2⟩) hterm
    simpa [applyOp, set_execution_output] using h
  | setErr id msg now =>
    have h := mutate_preserves_terminal m execution_id id (applySetErr msg now)
      (fun r => Or.inr rfl)
      (fun r hr => ⟨hr.1, ht, hr.2.2⟩) hterm
    simpa [applyOp, set_execution_error] using h
  | cancel id now =>
    rcases hc : is_connected m
    · have hres : cancel_execution m id now = .error .connectionError := by
        unfold cancel_execution
        simp [hc]
      simpa [applyOp, hres] using hterm
    · rcases hj : Backend.get m.backend (recordKey id) with _ | j
      · have hres : cancel_execution m id now = .ok (false, m) := by
          unfold cancel_execution
          simp [hc, hj]
        simpa [applyOp, hres] using hterm
      · rcases hd : decode j with _ | r
        · have hres : cancel_execution m id now = .ok (false, m) := by
            unfold cancel_execution
            simp [hc, hj, hd]
          simpa [applyOp, hres] using hterm
        · by_cases hr : r.state = .running
          · have hres : cancel_execution m id now = .ok (true, writeRecord m id
                { r with state := .cancelled, end_time := some now }) := by
              unfold cancel_execution
              simp [hc, hj, hd, hr]
            simp only [applyOp, hres]
            by_cases hkey : recordKey execution_id = recordKey id
            · have hid : execution_id = id := recordKey_inj _ _ hkey
              subst hid
              have hlook : stateOf m execution_id = some r.state := by
                unfold stateOf lookupRecord
                rw [hj]
                simp [hd]
              rw [hlook, hr] at hterm
              simp [isTerminalO, isTerminal] at hterm
            · unfold stateOf
              rw [lookup_writeRecord_other _ _ _ _ hkey]
              exact hterm
          · have hres : cancel_execution m id now = .ok (false, m) := by
              unfold cancel_execution
              simp [hc, hj, hd, hr]
            simpa [applyOp, hres] using hterm

theorem applyOps_preserves_terminal (execution_id : String) :
    ∀ (ops : List StateOp) (m : WorkflowStateManager),
      (∀ op ∈ ops, op.isUpdExec = false) → (∀ op ∈ ops, op.timesValid) →
      isTerminalO (stateOf m execution_id) = true →
      isTerminalO (stateOf (applyOps m ops) execution_id) = true
  | [], m, _, _, hterm => hterm
  | op :: rest, m, hops, hts, hterm => by
    have h1 := applyOp_preserves_terminal m execution_id op
      (hops op (List.mem_cons_self _ _)) (hts op (List.mem_cons_self _ _)) hterm
    exact applyOps_preserves_terminal execution_id rest (applyOp m op)
      (fun o ho => hops o (List.mem_cons_of_mem _ ho))
      (fun o ho => hts o (List.mem_cons_of_mem _ ho)) h1

instance (op : StateOp) : Decidable op.timesValid := by
  cases op <;> unfold StateOp.timesValid <;> infer_instance

/-- A connected manager holding only the completed record `e2`. -/
def mDone : WorkflowStateManager :=
  { mConn with backend :=
      { kv := [(.str (recordKey "e2"), ⟨encode rDone, 86400⟩)]
        lists := [] } }

theorem terminal_escape_counterexample :
    isTerminalO (stateOf mDone "e2") = true ∧
    stateOf (applyOps mDone [.updExec "e2" .running none none]) "e2" =
      some .running ∧
    isTerminalO (stateOf (applyOps mDone [.updExec "e2" .running none none]) "e2") =
      false := by
  decide

/-- C9 (amended): terminality is preserved by every sequence of public
operations not containing `update_execution_state` (whose written
timestamps are in-bounds); `update_execution_state` itself applies the
caller-supplied state unchecked, so it can leave a terminal state. -/
theorem terminal_states_preserved (m : WorkflowStateManager) (execution_id : String)
    (ops : List StateOp)
    (hops : ∀ op ∈ ops, op.isUpdExec = false)
    (hts : ∀ op ∈ ops, op.timesValid)
    (hterm : isTerminalO (stateOf m execution_id) = true) :
    isTerminalO (stateOf (applyOps m ops) execution_id) = true :=
  applyOps_preserves_terminal execution_id ops m hops hts hterm

/-- The sample non-`update_execution_state` operation sequence. -/
def opsW : List StateOp :=
  [.setOut "e2" .null, .cancel "e2" dtW, .updVertex "e2" "v1" .completed none dtW,
    .setErr "e2" "boom" dtW]

theorem terminal_states_preserved_witness :
    ((∀ op ∈ opsW, StateOp.isUpdExec op = false) ∧
      (∀ op ∈ opsW, StateOp.timesValid op) ∧
      isTerminalO (stateOf mDone "e2") = true) ∧
    isTerminalO (stateOf (applyOps mDone opsW) "e2") = true :=
  ⟨⟨by decide, by decide, by decide⟩,
    terminal_states_preserved mDone "e2" opsW (by decide) (by decide) (by decide)⟩
